import Mathlib

/-!
Verification development for the legislative-tracker sync pipeline
(api/sync-bills.js and api/scheduled-sync.js).

The JavaScript source is shallowly embedded: pure helpers become Lean
functions on `String`/`List Char`, the Airtable record store becomes an
explicit `Store` value threaded through the reconciler, and the effectful
pieces (upstream HTTP fetches, Airtable writes that can throw) are
parameters of type `Except String _`, mirroring the try/catch structure of
the source. JavaScript truthiness on optional string attributes is modelled
by `truthy : Option String → Bool` (absent or empty string is falsy).
-/

namespace SyncBills

/-- Embeds JavaScript truthiness for optional string values: `undefined`,
`null` and the empty string are falsy, every other string is truthy. -/
def truthy : Option String → Bool
  | none => false
  | some s => s != ""

/-- Association-list lookup with decidable key equality; first binding wins.
Used to read a field out of a record field set. -/
def alookup {κ β : Type} [DecidableEq κ] (k : κ) : List (κ × β) → Option β
  | [] => none
  | (k0, v) :: rest => if k0 = k then some v else alookup k rest

/-- Decides whether the pattern is a prefix of the character list. -/
def leadsWith : List Char → List Char → Bool
  | [], _ => true
  | _ :: _, [] => false
  | p :: ps, c :: cs => p = c && leadsWith ps cs

/-- Decides whether the pattern occurs as a contiguous sublist, scanning
left to right; embeds the JavaScript `String.prototype.includes`. -/
def containsSubL : List Char → List Char → Bool
  | l, p =>
    if leadsWith p l then true
    else match l with
      | [] => false
      | _ :: cs => containsSubL cs p

/-- Embeds the JavaScript `s.includes(pat)`. -/
def containsSub (s pat : String) : Bool := containsSubL s.data pat.data

/-- Embeds the JavaScript `s.toLowerCase()` restricted to ASCII, which is
all the source ever lowers (keyword matching and dictionary keys). -/
def lowerS (s : String) : String := String.mk (s.data.map Char.toLower)

/-- Embeds the JavaScript `s.toUpperCase()` restricted to ASCII. -/
def upperS (s : String) : String := String.mk (s.data.map Char.toUpper)

/-!  Status inference (`determineStatus`, sync-bills.js lines 592-606). -/

/-- Embeds `determineStatus`: the argument is the optional
`latest_action_description` of a bill; a falsy description short-circuits
to `Introduced`, otherwise ordered keyword checks run on the lower-cased
text. -/
def determineStatus (d : Option String) : String :=
  match d with
  | none => "Introduced"
  | some s =>
    if s = "" then "Introduced"
    else
      let action := lowerS s
      if containsSub action "signed" || containsSub action "enacted" then "Enacted"
      else if containsSub action "vetoed" then "Vetoed"
      else if containsSub action "failed" || containsSub action "died" then "Failed"
      else if containsSub action "passed" && containsSub action "senate" then "Passed Senate"
      else if containsSub action "passed" && containsSub action "house" then "Passed House"
      else if containsSub action "committee" then "In Committee"
      else "Introduced"

/-- Modelled from the spec wording: the ordered rule table
(signed/enacted, vetoed, failed/died, passed+senate, passed+house,
committee), used to state the refinement half of claim C2. -/
def specStatusRules : List ((String → Bool) × String) :=
  [ (fun a => containsSub a "signed" || containsSub a "enacted", "Enacted"),
    (fun a => containsSub a "vetoed", "Vetoed"),
    (fun a => containsSub a "failed" || containsSub a "died", "Failed"),
    (fun a => containsSub a "passed" && containsSub a "senate", "Passed Senate"),
    (fun a => containsSub a "passed" && containsSub a "house", "Passed House"),
    (fun a => containsSub a "committee", "In Committee") ]

/-- First matching rule wins; no rule matches gives `Introduced`. -/
def firstMatchStatus : List ((String → Bool) × String) → String → String
  | [], _ => "Introduced"
  | (p, v) :: rest, a => if p a then v else firstMatchStatus rest a

/-- Modelled from the spec wording of status inference: lower-case the
description and take the first matching rule of `specStatusRules`. -/
def determineStatusSpec (d : Option String) : String :=
  match d with
  | none => "Introduced"
  | some s =>
    if s = "" then "Introduced"
    else firstMatchStatus specStatusRules (lowerS s)

/-!  Date normalization (`normalizeDate`, sync-bills.js lines 563-589). -/

/-- Embeds the regex `^(\d{4}-\d{2}-\d{2})` of `normalizeDate`: returns the
ten-character calendar-date shaped prefix when present. -/
def datePrefix (s : String) : Option String :=
  match s.data with
  | a :: b :: c :: d :: e :: f :: g :: h :: i :: j :: _ =>
    if a.isDigit && b.isDigit && c.isDigit && d.isDigit && e = '-'
        && f.isDigit && g.isDigit && h = '-' && i.isDigit && j.isDigit
    then some (String.mk [a, b, c, d, e, f, g, h, i, j])
    else none
  | _ => none

/-- Embeds `normalizeDate`. The engine-defined general date parsing
(`new Date(s)` followed by the date part of `toISOString()`) is abstracted as
the `parse` parameter: `some formatted` models a successfully parsed and
reformatted date, `none` models an invalid date. A falsy input returns
`null`; a matched calendar-date prefix is returned directly; otherwise the
parse result or, failing that, the original string is returned. The
function is total, embedding the fact that the source never throws. -/
def normalizeDate (parse : String → Option String) (dateString : Option String) : Option String :=
  match dateString with
  | none => none
  | some s =>
    if s = "" then none
    else
      match datePrefix s with
      | some p => some p
      | none =>
        match parse s with
        | some formatted => some formatted
        | none => some s

/-!  Subject canonicalization (`formatSubjectName`, lines 326-383). -/

/-- Embeds the JavaScript `split` on an underscore character. -/
def splitUnd : List Char → List (List Char)
  | [] => [[]]
  | c :: cs =>
    if c = '_' then [] :: splitUnd cs
    else
      match splitUnd cs with
      | w :: ws => (c :: w) :: ws
      | [] => [[c]]

/-- Embeds `word.charAt(0).toUpperCase() + word.slice(1).toLowerCase()`. -/
def titleWord : List Char → List Char
  | [] => []
  | c :: rest => Char.toUpper c :: rest.map Char.toLower

/-- Embeds the global regex replace of `([a-z])([A-Z])` by `$1 $2`:
left-to-right scan, a match consumes both characters. -/
def repl1 : List Char → List Char
  | [] => []
  | [a] => [a]
  | a :: b :: rest =>
    if a.isLower && b.isUpper then a :: ' ' :: b :: repl1 rest
    else a :: repl1 (b :: rest)

/-- Embeds the global regex replace of `([A-Z])([A-Z][a-z])` by `$1 $2`:
left-to-right scan, a match consumes all three characters. -/
def repl2 : List Char → List Char
  | a :: b :: c :: rest =>
    if a.isUpper && b.isUpper && c.isLower then a :: ' ' :: b :: c :: repl2 rest
    else a :: repl2 (b :: c :: rest)
  | l => l

/-- Embeds `formatted.charAt(0).toUpperCase() + formatted.slice(1)`. -/
def capFirst : List Char → List Char
  | [] => []
  | c :: rest => Char.toUpper c :: rest

/-- Embeds the branch of `formatSubjectName` before the dictionary lookup:
underscore-separated labels are split, title-cased and joined with spaces;
otherwise spaces are inserted at case transitions and the first character
is upper-cased. -/
def heuristicFormat (s : String) : String :=
  if s.data.any (fun c => c = '_') then
    String.mk (List.intercalate [' '] ((splitUnd s.data).map titleWord))
  else
    String.mk (capFirst (repl2 (repl1 s.data)))

/-- Embeds the `commonWords` manual override table of `formatSubjectName`. -/
def commonWords : List (String × String) :=
  [ ("lawenforcement", "Law Enforcement"),
    ("publicsafety", "Public Safety"),
    ("racialandidentityprofiling", "Racial And Identity Profiling"),
    ("foodvendorsandfacilities", "Food Vendors And Facilities"),
    ("enforcementactivities", "Enforcement Activities"),
    ("preapprenticeshipprathway", "Pre-Apprenticeship Pathway"),
    ("peaceofficers", "Peace Officers"),
    ("confidentialityofrecords", "Confidentiality Of Records"),
    ("sexualassaultforensicevid", "Sexual Assault Forensic Evidence"),
    ("californiascienceandhealth", "California Science And Health"),
    ("economicdevelopment", "Economic Development"),
    ("industrystrategies", "Industry Strategies"),
    ("equitablecleanenergysup", "Equitable Clean Energy Supply") ]

/-- Embeds `formatSubjectName`: heuristic formatting, then the lower-cased
result is looked up in the override table and the override preferred. -/
def formatSubjectName (subject : String) : String :=
  let formatted := heuristicFormat subject
  match alookup (lowerS formatted) commonWords with
  | some v => v
  | none => formatted

/-!  Record store and the upsert reconciler (`findOrCreateRecord`,
sync-bills.js lines 53-76). -/

/-- One record of the external store: an internal record ID plus a field
set. Field values are kept generic so the same reconciler serves the
string-valued States collection and the mixed-valued Bills collection. -/
structure SRecord (α : Type) where
  rid : Nat
  fields : List (String × α)
deriving DecidableEq

/-- One collection of the external store, with the source of fresh
internal record IDs. -/
structure Store (α : Type) where
  recs : List (SRecord α)
  nextId : Nat
deriving DecidableEq

/-- Embeds the `filterByFormula` predicate of `findOrCreateRecord`: the
record field named by the search field equals the search value. -/
def recMatch {α : Type} [DecidableEq α] (kf : String) (kv : α) (r : SRecord α) : Bool :=
  decide (alookup kf r.fields = some kv)

/-- Embeds the Airtable partial update of the single found record: the
first matching record has the field set merged over its existing fields
(record IDs are unique in Airtable, so updating by the found ID is
updating the first matching record). -/
def updateFirst {α : Type} [DecidableEq α] (kf : String) (kv : α) (d : List (String × α)) :
    List (SRecord α) → List (SRecord α)
  | [] => []
  | r :: rs =>
    if recMatch kf kv r then ⟨r.rid, d ++ r.fields⟩ :: rs
    else r :: updateFirst kf kv d rs

/-- Embeds `findOrCreateRecord`: query the collection for one record whose
search field equals the search value; on a hit apply a partial update and
return the existing internal ID, otherwise create a record carrying the
field set and return the fresh internal ID. -/
def findOrCreateRecord {α : Type} [DecidableEq α] (st : Store α) (kf : String) (kv : α)
    (d : List (String × α)) : Nat × Store α :=
  match st.recs.find? (recMatch kf kv) with
  | some r => (r.rid, ⟨updateFirst kf kv d st.recs, st.nextId⟩)
  | none => (st.nextId, ⟨st.recs ++ [⟨st.nextId, d⟩], st.nextId + 1⟩)

/-- Embeds a sync loop over one collection: each item carries the search
value for the key field and the field set to reconcile. -/
def reconcileAll {α : Type} [DecidableEq α] (kf : String) (st : Store α)
    (items : List (α × List (String × α))) : Store α :=
  items.foldl (fun s item => (findOrCreateRecord s kf item.1 item.2).2) st

/-!  Jurisdiction sync (`syncState`, sync-bills.js lines 281-323). -/

/-- Embeds the upstream jurisdiction object as consumed by `syncState`.
Session metadata is abstracted as its serialized string form. -/
structure Jurisdiction where
  id : Option String
  name : String
  legislature_name : Option String
  legislative_sessions : List String
deriving DecidableEq

/-- Decides membership in the regex class `[a-z]` under the `i` flag. -/
def isAsciiLetter (c : Char) : Bool :=
  ('a' ≤ c && c ≤ 'z') || ('A' ≤ c && c ≤ 'Z')

/-- Tries the case-insensitive pattern `/state:<cc>/` at the head of the
character list, returning the two letters upper-cased on a match. -/
def matchStateAt : List Char → Option String
  | a :: b :: c :: d :: e :: f :: g :: h :: i :: j :: _ =>
    if a == '/' && Char.toLower b == 's' && Char.toLower c == 't'
        && Char.toLower d == 'a' && Char.toLower e == 't' && Char.toLower f == 'e'
        && g == ':' && isAsciiLetter h && isAsciiLetter i && j == '/'
    then some (String.mk [Char.toUpper h, Char.toUpper i])
    else none
  | _ => none

/-- Embeds the case-insensitive regex search for `/state:<cc>/`: scan left
to right, trying the pattern at each position. -/
def scanState : List Char → Option String
  | [] => none
  | a :: rest =>
    match matchStateAt (a :: rest) with
    | some r => some r
    | none => scanState rest

/-- Embeds the abbreviation extraction of `syncState`: match the structured
identifier, when present, against `/state:<cc>/`. -/
def extractAbbr (id : Option String) : Option String :=
  id.bind (fun s => scanState s.data)

/-- Embeds the record data built by `syncState`: state name always, the
abbreviation, legislature type and first-session info only when present. -/
def stateRecordData (j : Jurisdiction) : List (String × String) :=
  [("State Name", j.name)]
  ++ (match extractAbbr j.id with
      | some a => [("Abbreviation", a)]
      | none => [])
  ++ (if truthy j.legislature_name then [("Legislature Type", j.legislature_name.getD "")] else [])
  ++ (match j.legislative_sessions with
      | s :: _ => [("Session Info", s)]
      | [] => [])

/-- Embeds the search value `abbr || jurisdiction.name` of `syncState`. -/
def stateSearchValue (j : Jurisdiction) : String :=
  match extractAbbr j.id with
  | some a => a
  | none => j.name

/-- Embeds `syncState` against the store model: reconcile the States
collection by the `Abbreviation` field. -/
def syncState (st : Store String) (j : Jurisdiction) : Nat × Store String :=
  findOrCreateRecord st "Abbreviation" (stateSearchValue j) (stateRecordData j)

/-!  Legislator data (`syncLegislators` and `extractOfficeInfo`,
sync-bills.js lines 79-278). -/

/-- Embeds `current_role` of an upstream person; the district is kept in
its stringified form. -/
structure Role where
  district : Option String
  org_classification : Option String
  title : Option String
deriving DecidableEq

/-- Embeds the `jurisdiction` sub-object of an upstream person. -/
structure PJurisdiction where
  name : Option String
deriving DecidableEq

/-- Embeds one entry of the `offices` array of an upstream person. -/
structure Office where
  voice : Option String
  address : Option String
deriving DecidableEq

/-- Embeds one entry of the `links` array of an upstream person. -/
structure PLink where
  url : Option String
deriving DecidableEq

/-- Embeds an upstream person (sponsor stub or full People API record). -/
structure Person where
  id : Option String
  name : Option String
  given_name : Option String
  family_name : Option String
  image : Option String
  biography : Option String
  email : Option String
  party : Option String
  current_role : Option Role
  jurisdiction : Option PJurisdiction
  offices : List Office
  links : List PLink
deriving DecidableEq

/-- Embeds the result object of `extractOfficeInfo`. -/
structure OfficeInfo where
  phone : Option String
  address : Option String
  links : List String
deriving DecidableEq

/-- Embeds `extractOfficeInfo`: phone and address come from the first
office when truthy, links are the truthy URLs of the links array. -/
def extractOfficeInfo (p : Person) : OfficeInfo :=
  let phone : Option String :=
    match p.offices with
    | [] => none
    | o :: _ => if truthy o.voice then o.voice else none
  let address : Option String :=
    match p.offices with
    | [] => none
    | o :: _ => if truthy o.address then o.address else none
  ⟨phone, address, (p.links.filterMap (fun l => l.url)).filter (fun u => u != "")⟩

/-- Embeds the record data built per person by `syncLegislators` (lines
140-205): `Full Name` and `OpenStates ID` are always written with an
empty-string fallback, every other field is added only when the upstream
attribute is truthy. -/
def buildLegislatorRecord (p : Person) : List (String × String) :=
  let district : String :=
    match p.current_role.bind (fun r => r.district) with
    | some s => if s != "" then s else ""
    | none => ""
  let office := extractOfficeInfo p
  [("Full Name", p.name.getD ""), ("OpenStates ID", p.id.getD "")]
  ++ (if truthy p.given_name then [("First Name", p.given_name.getD "")] else [])
  ++ (if truthy p.family_name then [("Last Name", p.family_name.getD "")] else [])
  ++ (if district != "" then [("District", district)] else [])
  ++ (if truthy p.image then [("Photo URL", p.image.getD "")] else [])
  ++ (if truthy p.biography then [("Biography", p.biography.getD "")] else [])
  ++ (if truthy p.email then [("Contact Email", p.email.getD "")] else [])
  ++ (if truthy p.party then [("Party", p.party.getD "")] else [])
  ++ (if truthy (p.current_role.bind (fun r => r.org_classification)) then
        [("Chamber", (p.current_role.bind (fun r => r.org_classification)).getD "")] else [])
  ++ (if truthy (p.jurisdiction.bind (fun j => j.name)) then
        [("State", (p.jurisdiction.bind (fun j => j.name)).getD "")] else [])
  ++ (if truthy (p.current_role.bind (fun r => r.title)) then
        [("Title", (p.current_role.bind (fun r => r.title)).getD "")] else [])
  ++ (if truthy office.phone then [("Phone", office.phone.getD "")] else [])
  ++ (if truthy office.address then [("Office Address", office.address.getD "")] else [])
  ++ (if office.links.length > 0 then [("Links", String.intercalate "\n" office.links)] else [])

/-!  Chunked batch fetch of legislators (lines 86-129). -/

/-- Embeds the deduplication pass of `[...new Set(list)]`, keeping the
first occurrence of each element. -/
def dedupSeen (seen : List String) : List String → List String
  | [] => []
  | x :: xs => if x ∈ seen then dedupSeen seen xs else x :: dedupSeen (x :: seen) xs

/-- Embeds `[...new Set(people.map(p => p.id).filter(Boolean))]`: the
unique truthy person IDs in first-occurrence order. -/
def personIdsOf (people : List Person) : List String :=
  dedupSeen [] (((people.map (fun p => p.id)).filterMap (fun o => o)).filter (fun s => s != ""))

/-- Fuel-bounded worker for `chunksOf`; every step consumes at least one
list element, so fuel equal to the list length is always sufficient. -/
def chunksOfFuel {α : Type} : Nat → Nat → List α → List (List α)
  | 0, _, _ => []
  | _ + 1, _, [] => []
  | fuel + 1, n, x :: xs => (x :: xs.take (n - 1)) :: chunksOfFuel fuel n (xs.drop (n - 1))

/-- Embeds the chunking for-loop (`i += chunkSize`, slice of size 10):
successive slices of at most `n` elements. -/
def chunksOf {α : Type} (n : Nat) (l : List α) : List (List α) :=
  chunksOfFuel l.length n l

/-- Embeds the chunk loop of `syncLegislators`: each chunk is fetched once
(recorded in the returned trace whether or not it fails); a successful
response has its people inserted into the map keyed by their upstream ID
(later insertions shadow earlier ones, as `Map.set` overwrites); a failed
chunk is caught, contributes nothing, and the loop continues. -/
def runChunks (fetch : List String → Except String (List Person)) :
    List (List String) → List (Option String × Person) × List (List String)
  | [] => ([], [])
  | c :: cs =>
    let head : List (Option String × Person) :=
      match fetch c with
      | .ok results => results.foldl (fun m p => (p.id, p) :: m) []
      | .error _ => []
    let rest := runChunks fetch cs
    (rest.1 ++ head, c :: rest.2)

/-- Embeds `peopleMap.get(person.id) || person`: the full fetched person
when the map holds one for this ID, else the caller-supplied stub. -/
def resolvePersonData (m : List (Option String × Person)) (p : Person) : Person :=
  match alookup p.id m with
  | some fp => fp
  | none => p

/-!  Bill record construction (`syncBills`, sync-bills.js lines 436-560). -/

/-- Field values written to the Bills collection: strings, linked-record ID
lists, or null (dates that normalize to null). -/
inductive FieldVal where
  | str (s : String)
  | list (l : List String)
  | vnull
deriving DecidableEq

/-- Embeds one entry of the `abstracts` array of an upstream bill. -/
structure Abstract where
  abstract : Option String
deriving DecidableEq

/-- Embeds the `from_organization` sub-object of an upstream bill. -/
structure Org where
  classification : Option String
deriving DecidableEq

/-- Embeds an upstream bill as consumed by `syncBills`. -/
structure Bill where
  id : Option String
  identifier : Option String
  title : Option String
  abstracts : List Abstract
  openstates_url : Option String
  latest_action_description : Option String
  classification : List String
  latest_action_date : Option String
  first_action_date : Option String
  from_organization : Option Org
deriving DecidableEq

/-- Decides membership in the regex class `\s` for the ASCII range. -/
def jsSpace (c : Char) : Bool :=
  c = ' ' || c = '\t' || c = '\n' || c = '\r' || c = '\x0b' || c = '\x0c'

/-- Embeds `identifier.replace(/\s+/g, "")`. -/
def stripSpaces (s : String) : String :=
  String.mk (s.data.filter (fun c => !jsSpace c))

/-- Embeds the JavaScript string interpolation of an optional string:
an absent value interpolates as the text `undefined`. -/
def jsStr (o : Option String) : String :=
  match o with
  | some s => s
  | none => "undefined"

/-- Embeds the `recordData` object built per bill by `syncBills` (lines
474-536), including the capped Sponsors and Subject Areas link lists. The
`parse` parameter abstracts engine date parsing exactly as in
`normalizeDate`; sponsor and subject internal IDs are the outcomes of the
per-sponsor and per-subject reconciliations (null for a failed one). -/
def buildBillRecord (parse : String → Option String) (state : String)
    (sponsorIds subjectIds : List (Option String)) (b : Bill) : List (String × FieldVal) :=
  let validSponsorIds := sponsorIds.filterMap (fun x => x)
  let validSubjectIds := subjectIds.filterMap (fun x => x)
  let status := determineStatus b.latest_action_description
  [ ("Bill ID", FieldVal.str (b.identifier.getD "")),
    ("Title", FieldVal.str (b.title.getD "")),
    ("Summary", FieldVal.str (match b.abstracts with
      | [] => ""
      | a :: _ => a.abstract.getD "")),
    ("OpenStates ID", FieldVal.str (b.id.getD "")),
    ("Source URL", FieldVal.str (b.openstates_url.getD "")),
    ("Latest Action", FieldVal.str (b.latest_action_description.getD "")) ]
  ++ (if truthy b.identifier then [("Slug", FieldVal.str (stripSpaces (b.identifier.getD "")))] else [])
  ++ (match b.classification with
      | c :: _ => if c != "" then [("Classification", FieldVal.str c)] else []
      | [] => [])
  ++ [("State", FieldVal.str (upperS state))]
  ++ (if status != "" then [("Current Status", FieldVal.str status)] else [])
  ++ (if truthy b.latest_action_date then
        [("Latest Action Date", match normalizeDate parse b.latest_action_date with
          | some s => FieldVal.str s
          | none => FieldVal.vnull)] else [])
  ++ (if truthy b.first_action_date then
        [("Introduction Date", match normalizeDate parse b.first_action_date with
          | some s => FieldVal.str s
          | none => FieldVal.vnull)] else [])
  ++ (if truthy (b.from_organization.bind (fun o => o.classification)) then
        [("Chamber", FieldVal.str ((b.from_organization.bind (fun o => o.classification)).getD ""))] else [])
  ++ (if sponsorIds.length > 0 then
        (if validSponsorIds.length > 0 then [("Sponsors", FieldVal.list (validSponsorIds.take 10))] else [])
      else [])
  ++ (if subjectIds.length > 0 then
        (if validSubjectIds.length > 0 then [("Subject Areas", FieldVal.list (validSubjectIds.take 10))] else [])
      else [])

/-- Embeds the per-bill reconciliation items of one `syncBills` run over a
fixed upstream bill list: each bill is reconciled in the Bills collection
by `OpenStates ID` with search value `bill.id` and its built record data.
The sponsor and subject ID assignments are functions of the bill, fixed
across runs, modelling identical upstream data. -/
def billSyncItems (parse : String → Option String) (state : String)
    (spF subF : Bill → List (Option String)) (bills : List Bill) :
    List (FieldVal × List (String × FieldVal)) :=
  bills.map (fun b => (FieldVal.str (jsStr b.id), buildBillRecord parse state (spF b) (subF b) b))

/-!  HTTP handler (sync-bills.js lines 609-685) and the per-state loop
body (lines 638-667). -/

/-- Embeds one entry of the per-state `results` array of the handler. -/
structure SyncEntry where
  state : String
  success : Bool
  synced : Option Nat
  total : Option Nat
  error : Option String
deriving DecidableEq

/-- Embeds the JSON body of a manual sync request. -/
structure ReqBody where
  state : Option String
  states : Option (List String)
  limit : Option Nat
deriving DecidableEq

/-- Embeds an incoming request: method, authorization header, and the
parsed body (`none` embeds an absent or unparsed `req.body`). -/
structure Req where
  method : String
  authHeader : Option String
  body : Option ReqBody
deriving DecidableEq

/-- Embeds the response bodies of the handler: plain error objects for
401/400/405, the failure object of the outer catch (500), and the success
object with the per-state results array. -/
inductive RespBody where
  | errBody (error : String)
  | failBody (success : Bool) (error : String)
  | syncBody (success : Bool) (message : String) (totalStates totalSynced totalBills : Nat)
      (results : List SyncEntry)
deriving DecidableEq

/-- Embeds `syncState` as invoked by the handler, with the store write
abstracted as a fallible `reconcile` effect: the source catches any store
error and returns null instead of propagating it. -/
def syncStateCaught (reconcile : String → List (String × String) → Except String Nat)
    (j : Jurisdiction) : Option Nat :=
  match reconcile (stateSearchValue j) (stateRecordData j) with
  | .ok rid => some rid
  | .error _ => none

/-- Embeds the body of the per-state loop of the handler: fetch the
jurisdiction, sync the States record discarding its result, then sync the
bills; a thrown error from the fetch or the bill sync is caught and
recorded as a failure entry for this state only. -/
def processState (jurisFetch : Except String Jurisdiction)
    (reconcile : String → List (String × String) → Except String Nat)
    (billsRun : Except String (Nat × Nat)) (stateName : String) : SyncEntry :=
  match jurisFetch with
  | .error e => ⟨stateName, false, none, none, some e⟩
  | .ok jd =>
    let _stateRecordId := syncStateCaught reconcile jd
    match billsRun with
    | .ok st => ⟨stateName, true, some st.1, some st.2, none⟩
    | .error e => ⟨stateName, false, none, none, some e⟩

/-- Embeds `limit || 50`: an absent or zero limit falls back to 50. -/
def effectiveLimit (limit : Option Nat) : Nat :=
  match limit with
  | some n => if n = 0 then 50 else n
  | none => 50

/-- Embeds the success path of the handler over a resolved state list:
run the per-state loop, then assemble the always-200 summary body with
the success flag and the per-state results array. -/
def handlerRun (jurisFetchF : String → Except String Jurisdiction)
    (reconcileF : String → List (String × String) → Except String Nat)
    (billsF : String → Nat → Except String (Nat × Nat))
    (statesToSync : List String) (limit : Option Nat) : RespBody :=
  let lim := effectiveLimit limit
  let entries := statesToSync.map (fun s => processState (jurisFetchF s) reconcileF (billsF s lim) s)
  let totalSynced := (entries.filterMap (fun e => e.synced)).foldl (fun a b => a + b) 0
  let totalBills := (entries.filterMap (fun e => e.total)).foldl (fun a b => a + b) 0
  RespBody.syncBody true
    ("Synced " ++ toString totalSynced ++ " of " ++ toString totalBills
      ++ " bills across " ++ toString statesToSync.length ++ " state(s)")
    statesToSync.length totalSynced totalBills entries

/-- Embeds the exported handler: 405 for a non-POST method, 401 for a bad
bearer secret, 500 when destructuring an absent body throws (caught by the
outer catch), 400 when no states array is supplied and the state parameter
is not truthy (absent or the empty string, mirroring `else if (state)`),
and otherwise the 200 summary response. -/
def handler (secret : String) (jurisFetchF : String → Except String Jurisdiction)
    (reconcileF : String → List (String × String) → Except String Nat)
    (billsF : String → Nat → Except String (Nat × Nat)) (req : Req) : Nat × RespBody :=
  if req.method != "POST" then (405, RespBody.errBody "Method not allowed")
  else if req.authHeader != some ("Bearer " ++ secret) then (401, RespBody.errBody "Unauthorized")
  else
    match req.body with
    | none => (500, RespBody.failBody false "Cannot destructure req.body")
    | some body =>
      match body.states with
      | some ss => (200, handlerRun jurisFetchF reconcileF billsF ss body.limit)
      | none =>
        if truthy body.state then
          (200, handlerRun jurisFetchF reconcileF billsF [body.state.getD ""] body.limit)
        else (400, RespBody.errBody "State or states parameter is required")

/-!  Helper lemmas. -/

theorem alookup_append {β : Type} (k : String) (l1 l2 : List (String × β)) :
    alookup k (l1 ++ l2) = (alookup k l1).or (alookup k l2) := by
  induction l1 with
  | nil => simp [alookup, Option.none_or]
  | cons h t ih =>
    obtain ⟨k0, v⟩ := h
    by_cases hk : k0 = k
    · simp [alookup, hk, Option.or_some]
    · simp [alookup, hk, ih]

theorem alookup_append_some {β : Type} (k : String) (v : β) (l1 l2 : List (String × β))
    (h : alookup k l1 = some v) : alookup k (l1 ++ l2) = some v := by
  rw [alookup_append, h, Option.or_some]

theorem alookup_ite_single {β : Type} (k k0 : String) (v : β) (c : Prop) [Decidable c] :
    alookup k (if c then [(k0, v)] else []) =
      if c then (if k0 = k then some v else none) else none := by
  split <;> simp [alookup]

theorem alookup_ite_single_neg {β : Type} (k k0 : String) (v : β) (c : Prop) [Decidable c] :
    alookup k (if c then [] else [(k0, v)]) =
      if c then none else (if k0 = k then some v else none) := by
  split <;> simp [alookup]

theorem leadsWith_map (f : Char → Char) :
    ∀ p l : List Char, leadsWith p l = true → leadsWith (p.map f) (l.map f) = true := by
  intro p
  induction p with
  | nil => intro l _; simp [leadsWith]
  | cons a ps ih =>
    intro l h
    cases l with
    | nil => simp [leadsWith] at h
    | cons c cs =>
      simp only [leadsWith, Bool.and_eq_true, decide_eq_true_eq] at h
      simp only [List.map_cons, leadsWith, Bool.and_eq_true, decide_eq_true_eq]
      exact ⟨by rw [h.1], ih cs h.2⟩

theorem containsSubL_map (f : Char → Char) :
    ∀ l p : List Char, containsSubL l p = true → containsSubL (l.map f) (p.map f) = true := by
  intro l
  induction l with
  | nil =>
    intro p h
    unfold containsSubL at h ⊢
    by_cases hp : leadsWith p [] = true
    · cases p with
      | nil => simp [leadsWith]
      | cons a ps => simp [leadsWith] at hp
    · rw [if_neg hp] at h
      simp at h
  | cons c cs ih =>
    intro p h
    unfold containsSubL at h ⊢
    by_cases hp : leadsWith p (c :: cs) = true
    · have hm := leadsWith_map f p (c :: cs) hp
      simp only [List.map_cons] at hm ⊢
      rw [if_pos hm]
    · rw [if_neg hp] at h
      have h2 : containsSubL cs p = true := h
      have h3 := ih p h2
      simp only [List.map_cons]
      by_cases hq : leadsWith (p.map f) (f c :: cs.map f) = true
      · rw [if_pos hq]
      · rw [if_neg hq]
        exact h3

theorem containsSub_lower (s pat : String) (hpat : lowerS pat = pat)
    (h : containsSub s pat = true) : containsSub (lowerS s) pat = true := by
  have hdata : pat.data.map Char.toLower = pat.data := by
    have := congrArg String.data hpat
    simpa [lowerS] using this
  have := containsSubL_map Char.toLower s.data pat.data h
  rw [hdata] at this
  simpa [containsSub, lowerS] using this

/-!  Claim C2: status inference. -/

/-- C2: the inferred status of every bill is one of the seven statuses of
the enum; the computation equals the spec-side ordered first-match rule
table over the lower-cased description; a description containing both
`signed` and `committee` yields `Enacted` (earlier rule wins); a missing
or empty description yields `Introduced`. -/
theorem c2_status_inference :
    (∀ d, determineStatus d ∈
      ["Introduced", "In Committee", "Passed House", "Passed Senate", "Enacted", "Vetoed", "Failed"])
    ∧ (∀ d, determineStatus d = determineStatusSpec d)
    ∧ (∀ s, containsSub s "signed" = true → containsSub s "committee" = true →
        determineStatus (some s) = "Enacted")
    ∧ determineStatus none = "Introduced"
    ∧ determineStatus (some "") = "Introduced" := by
  refine ⟨?_, ?_, ?_, rfl, rfl⟩
  · intro d
    cases d with
    | none => simp [determineStatus]
    | some s =>
      simp only [determineStatus]
      split_ifs <;> decide
  · intro d
    cases d <;> rfl
  · intro s h1 _h2
    have hs : ¬(s = "") := by
      intro he
      subst he
      exact absurd h1 (by decide)
    have h1l : containsSub (lowerS s) "signed" = true :=
      containsSub_lower s "signed" (by decide) h1
    simp only [determineStatus]
    rw [if_neg hs]
    simp [h1l]

/-- C2 witness: a concrete description containing both `signed` and
`committee` infers `Enacted`. -/
theorem c2_status_inference_witness :
    determineStatus (some "signed in committee") = "Enacted" :=
  c2_status_inference.2.2.1 "signed in committee" (by decide) (by decide)

/-!  Claim C3: subject canonicalization. -/

/-- C3: underscore labels are split on underscores, title-cased and joined
with spaces; other labels get a space inserted at case transitions with the
first character upper-cased; in either case the override table, keyed by
the lower-cased heuristic result, is preferred when it applies, and the
heuristic result is returned otherwise (the function is total, so an
unmapped compound word never throws). Includes the two concrete examples
of the claim. -/
theorem c3_subject_canonicalization :
    formatSubjectName "PUBLIC_SAFETY" = "Public Safety"
    ∧ formatSubjectName "Lawenforcement" = "Law Enforcement"
    ∧ (∀ s v, alookup (lowerS (heuristicFormat s)) commonWords = some v →
        formatSubjectName s = v)
    ∧ (∀ s, alookup (lowerS (heuristicFormat s)) commonWords = none →
        formatSubjectName s = heuristicFormat s)
    ∧ (∀ s, s.data.any (fun c => c = '_') = true →
        heuristicFormat s = String.mk (List.intercalate [' '] ((splitUnd s.data).map titleWord)))
    ∧ (∀ s, s.data.any (fun c => c = '_') = false →
        heuristicFormat s = String.mk (capFirst (repl2 (repl1 s.data)))) := by
  refine ⟨by decide, by decide, ?_, ?_, ?_, ?_⟩
  · intro s v h
    simp only [formatSubjectName]
    rw [h]
  · intro s h
    simp only [formatSubjectName]
    rw [h]
  · intro s h
    simp only [heuristicFormat]
    rw [if_pos h]
  · intro s h
    simp only [heuristicFormat]
    rw [if_neg (by simp [h])]

/-- C3 witness: the override lookup hypothesis discharged at the concrete
label of the claim. -/
theorem c3_subject_canonicalization_witness :
    formatSubjectName "Lawenforcement" = "Law Enforcement" :=
  c3_subject_canonicalization.2.2.1 "Lawenforcement" "Law Enforcement" (by decide)

/-!  Claim C4: date normalization (corrected on the empty string). -/

/-- C4 counterexample: the empty string matches no calendar-date prefix and
fails general date parsing, yet normalization returns null rather than the
original string unchanged (the falsy guard fires first). -/
theorem c4_counterexample :
    normalizeDate (fun _ => none) (some "") = none
    ∧ normalizeDate (fun _ => none) (some "") ≠ some "" := by
  exact ⟨rfl, by decide⟩

/-- C4 amended: date normalization is total (never throws); a null input
returns null; an input with a calendar-date prefix returns exactly that
ten-character prefix, regardless of the engine parser; a NONEMPTY input
with no calendar-date prefix whose general parsing fails is returned
unchanged; the empty string returns null. -/
theorem c4_date_normalization_amended (parse : String → Option String) :
    normalizeDate parse none = none
    ∧ (∀ s p, datePrefix s = some p → normalizeDate parse (some s) = some p)
    ∧ (∀ s, s ≠ "" → datePrefix s = none → parse s = none →
        normalizeDate parse (some s) = some s)
    ∧ normalizeDate parse (some "") = none
    ∧ normalizeDate parse (some "2025-02-19T05:00:00+00:00") = some "2025-02-19"
    ∧ normalizeDate parse (some "2020-01-15") = some "2020-01-15" := by
  refine ⟨rfl, ?_, ?_, rfl, rfl, rfl⟩
  · intro s p h
    have hs : ¬(s = "") := by
      intro he
      subst he
      rw [show datePrefix "" = none from rfl] at h
      exact Option.noConfusion h
    simp only [normalizeDate]
    rw [if_neg hs, h]
  · intro s hs hpre hparse
    simp only [normalizeDate]
    rw [if_neg hs, hpre, hparse]

/-- C4 witness: the pass-through branch at a concrete malformed input with
a concretely failing parser. -/
theorem c4_date_normalization_amended_witness :
    normalizeDate (fun _ => none) (some "not a date") = some "not a date" :=
  (c4_date_normalization_amended (fun _ => none)).2.2.1 "not a date" (by decide) (by decide) rfl

/-!  Store lemmas for the upsert reconciler. -/

theorem updateFirst_length {α : Type} [DecidableEq α] (kf : String) (kv : α)
    (d : List (String × α)) : ∀ l, (updateFirst kf kv d l).length = l.length := by
  intro l
  induction l with
  | nil => rfl
  | cons r rs ih =>
    unfold updateFirst
    by_cases h : recMatch kf kv r = true
    · rw [if_pos h]
      simp
    · rw [if_neg h]
      simp [ih]

theorem recMatch_of_alookup {α : Type} [DecidableEq α] (kf : String) (kv : α) (r : SRecord α)
    (h : alookup kf r.fields = some kv) : recMatch kf kv r = true := by
  simp [recMatch, h]

theorem alookup_of_recMatch {α : Type} [DecidableEq α] (kf : String) (kv : α) (r : SRecord α)
    (h : recMatch kf kv r = true) : alookup kf r.fields = some kv := by
  simpa [recMatch] using h

theorem updateFirst_mem_updated {α : Type} [DecidableEq α] (kf : String) (kv : α)
    (d : List (String × α)) :
    ∀ (l : List (SRecord α)) r, l.find? (recMatch kf kv) = some r →
      (⟨r.rid, d ++ r.fields⟩ : SRecord α) ∈ updateFirst kf kv d l := by
  intro l
  induction l with
  | nil => intro r h; simp [List.find?] at h
  | cons a as ih =>
    intro r h
    by_cases ha : recMatch kf kv a = true
    · simp only [List.find?, ha] at h
      injection h with h
      subst h
      unfold updateFirst
      rw [if_pos ha]
      exact List.mem_cons_self _ _
    · simp only [List.find?, Bool.of_not_eq_true ha] at h
      unfold updateFirst
      rw [if_neg ha]
      exact List.mem_cons_of_mem _ (ih r h)

theorem updateFirst_exists_key {α : Type} [DecidableEq α] (kf : String) (kv kv1 : α)
    (d : List (String × α)) (hd : alookup kf d = some kv) :
    ∀ l : List (SRecord α), (∃ r ∈ l, alookup kf r.fields = some kv1) →
      ∃ r ∈ updateFirst kf kv d l, alookup kf r.fields = some kv1 := by
  intro l
  induction l with
  | nil => intro ⟨r, hm, _⟩; simp at hm
  | cons a as ih =>
    intro ⟨r0, hm, hk⟩
    by_cases ha : recMatch kf kv a = true
    · unfold updateFirst
      rw [if_pos ha]
      rcases List.mem_cons.mp hm with he | ht
      · subst he
        have hkv : alookup kf r0.fields = some kv := alookup_of_recMatch kf kv r0 ha
        have : kv = kv1 := by
          rw [hkv] at hk
          injection hk
        subst this
        exact ⟨⟨r0.rid, d ++ r0.fields⟩, List.mem_cons_self _ _,
          alookup_append_some kf kv d r0.fields hd⟩
      · exact ⟨r0, List.mem_cons_of_mem _ ht, hk⟩
    · unfold updateFirst
      rw [if_neg ha]
      rcases List.mem_cons.mp hm with he | ht
      · subst he
        exact ⟨r0, List.mem_cons_self _ _, hk⟩
      · obtain ⟨r1, hm1, hk1⟩ := ih ⟨r0, ht, hk⟩
        exact ⟨r1, List.mem_cons_of_mem _ hm1, hk1⟩

theorem find?_isSome_of_key {α : Type} [DecidableEq α] (kf : String) (kv : α) :
    ∀ l : List (SRecord α), (∃ r ∈ l, alookup kf r.fields = some kv) →
      ∃ r, l.find? (recMatch kf kv) = some r := by
  intro l
  induction l with
  | nil => intro ⟨r, hm, _⟩; simp at hm
  | cons a as ih =>
    intro ⟨r0, hm, hk⟩
    by_cases ha : recMatch kf kv a = true
    · exact ⟨a, by simp [List.find?, ha]⟩
    · rcases List.mem_cons.mp hm with he | ht
      · subst he
        exact absurd (recMatch_of_alookup kf kv r0 hk) ha
      · obtain ⟨r1, h1⟩ := ih ⟨r0, ht, hk⟩
        exact ⟨r1, by simp [List.find?, Bool.of_not_eq_true ha, h1]⟩

theorem upsert_gains_key {α : Type} [DecidableEq α] (st : Store α) (kf : String) (kv : α)
    (d : List (String × α)) (hd : alookup kf d = some kv) :
    ∃ r ∈ (findOrCreateRecord st kf kv d).2.recs, alookup kf r.fields = some kv := by
  unfold findOrCreateRecord
  cases hf : st.recs.find? (recMatch kf kv) with
  | none =>
    exact ⟨⟨st.nextId, d⟩, by simp, hd⟩
  | some r =>
    exact ⟨⟨r.rid, d ++ r.fields⟩, updateFirst_mem_updated kf kv d st.recs r hf,
      alookup_append_some kf kv d r.fields hd⟩

theorem upsert_preserves_key {α : Type} [DecidableEq α] (st : Store α) (kf : String)
    (kv kv1 : α) (d : List (String × α)) (hd : alookup kf d = some kv)
    (h : ∃ r ∈ st.recs, alookup kf r.fields = some kv1) :
    ∃ r ∈ (findOrCreateRecord st kf kv d).2.recs, alookup kf r.fields = some kv1 := by
  unfold findOrCreateRecord
  cases hf : st.recs.find? (recMatch kf kv) with
  | none =>
    obtain ⟨r0, hm, hk⟩ := h
    exact ⟨r0, by simp [List.mem_append.mpr (Or.inl hm)], hk⟩
  | some r =>
    exact updateFirst_exists_key kf kv kv1 d hd st.recs h

theorem upsert_length_of_key {α : Type} [DecidableEq α] (st : Store α) (kf : String) (kv : α)
    (d : List (String × α)) (h : ∃ r ∈ st.recs, alookup kf r.fields = some kv) :
    (findOrCreateRecord st kf kv d).2.recs.length = st.recs.length := by
  obtain ⟨r, hf⟩ := find?_isSome_of_key kf kv st.recs h
  unfold findOrCreateRecord
  rw [hf]
  exact updateFirst_length kf kv d st.recs

theorem reconcileAll_preserves_key {α : Type} [DecidableEq α] (kf : String) (kv1 : α) :
    ∀ (items : List (α × List (String × α))) (st : Store α),
      (∀ i ∈ items, alookup kf i.2 = some i.1) →
      (∃ r ∈ st.recs, alookup kf r.fields = some kv1) →
      ∃ r ∈ (reconcileAll kf st items).recs, alookup kf r.fields = some kv1 := by
  intro items
  induction items with
  | nil => intro st _ h; exact h
  | cons i is ih =>
    intro st hitems h
    have hstep := upsert_preserves_key st kf i.1 kv1 i.2 (hitems i (List.mem_cons_self _ _)) h
    exact ih _ (fun j hj => hitems j (List.mem_cons_of_mem _ hj)) hstep

theorem reconcileAll_gains_keys {α : Type} [DecidableEq α] (kf : String) :
    ∀ (items : List (α × List (String × α))) (st : Store α),
      (∀ i ∈ items, alookup kf i.2 = some i.1) →
      ∀ i ∈ items, ∃ r ∈ (reconcileAll kf st items).recs, alookup kf r.fields = some i.1 := by
  intro items
  induction items with
  | nil => intro st _ i hi; simp at hi
  | cons j js ih =>
    intro st hitems i hi
    rcases List.mem_cons.mp hi with he | ht
    · subst he
      have hgain := upsert_gains_key st kf i.1 i.2 (hitems i (List.mem_cons_self _ _))
      exact reconcileAll_preserves_key kf i.1 js _
        (fun x hx => hitems x (List.mem_cons_of_mem _ hx)) hgain
    · exact ih _ (fun x hx => hitems x (List.mem_cons_of_mem _ hx)) i ht

theorem reconcileAll_length_stable {α : Type} [DecidableEq α] (kf : String) :
    ∀ (items : List (α × List (String × α))) (st : Store α),
      (∀ i ∈ items, alookup kf i.2 = some i.1) →
      (∀ i ∈ items, ∃ r ∈ st.recs, alookup kf r.fields = some i.1) →
      (reconcileAll kf st items).recs.length = st.recs.length := by
  intro items
  induction items with
  | nil => intro st _ _; rfl
  | cons j js ih =>
    intro st hitems hall
    have hstep : (findOrCreateRecord st kf j.1 j.2).2.recs.length = st.recs.length :=
      upsert_length_of_key st kf j.1 j.2 (hall j (List.mem_cons_self _ _))
    have hrest : ∀ i ∈ js, ∃ r ∈ (findOrCreateRecord st kf j.1 j.2).2.recs,
        alookup kf r.fields = some i.1 := by
      intro i hi
      exact upsert_preserves_key st kf j.1 i.1 j.2 (hitems j (List.mem_cons_self _ _))
        (hall i (List.mem_cons_of_mem _ hi))
    calc (reconcileAll kf st (j :: js)).recs.length
        = (reconcileAll kf (findOrCreateRecord st kf j.1 j.2).2 js).recs.length := rfl
      _ = (findOrCreateRecord st kf j.1 j.2).2.recs.length :=
          ih _ (fun x hx => hitems x (List.mem_cons_of_mem _ hx)) hrest
      _ = st.recs.length := hstep

theorem alookup_billRecord_key (parse : String → Option String) (state : String)
    (sponsorIds subjectIds : List (Option String)) (b : Bill) :
    alookup "OpenStates ID" (buildBillRecord parse state sponsorIds subjectIds b)
      = some (FieldVal.str (b.id.getD "")) := by
  simp [buildBillRecord, alookup]

/-!  Claim C1: the upsert reconciler and Bill sync idempotence. -/

/-- C1: when the collection holds a matching record, the reconciler
partially updates that record (field set merged over its fields) and
returns its existing internal ID, leaving the record count unchanged; when
none matches, it appends exactly one record carrying the field set and
returns the fresh internal ID. Consequently any reconciliation loop whose
field sets carry their own search key is idempotent on record count, and in
particular running Bill sync twice over identical upstream data (every bill
carrying an external ID) leaves the Bills record count unchanged. -/
theorem c1_upsert_reconciler :
    (∀ (st : Store String) kf kv d r, st.recs.find? (recMatch kf kv) = some r →
      (findOrCreateRecord st kf kv d).1 = r.rid
      ∧ (findOrCreateRecord st kf kv d).2.recs.length = st.recs.length
      ∧ (⟨r.rid, d ++ r.fields⟩ : SRecord String) ∈ (findOrCreateRecord st kf kv d).2.recs)
    ∧ (∀ (st : Store String) kf kv d, st.recs.find? (recMatch kf kv) = none →
      (findOrCreateRecord st kf kv d).1 = st.nextId
      ∧ (findOrCreateRecord st kf kv d).2.recs = st.recs ++ [⟨st.nextId, d⟩]
      ∧ (findOrCreateRecord st kf kv d).2.recs.length = st.recs.length + 1)
    ∧ (∀ (kf : String) (items : List (FieldVal × List (String × FieldVal))) (st : Store FieldVal),
        (∀ i ∈ items, alookup kf i.2 = some i.1) →
        (reconcileAll kf (reconcileAll kf st items) items).recs.length
          = (reconcileAll kf st items).recs.length)
    ∧ (∀ (parse : String → Option String) (state : String) (spF subF : Bill → List (Option String))
        (bills : List Bill) (st : Store FieldVal),
        (∀ b ∈ bills, b.id.isSome = true) →
        (reconcileAll "OpenStates ID"
            (reconcileAll "OpenStates ID" st (billSyncItems parse state spF subF bills))
            (billSyncItems parse state spF subF bills)).recs.length
          = (reconcileAll "OpenStates ID" st (billSyncItems parse state spF subF bills)).recs.length) := by
  refine ⟨?_, ?_, ?_, ?_⟩
  · intro st kf kv d r h
    unfold findOrCreateRecord
    rw [h]
    exact ⟨rfl, updateFirst_length kf kv d st.recs, updateFirst_mem_updated kf kv d st.recs r h⟩
  · intro st kf kv d h
    unfold findOrCreateRecord
    rw [h]
    exact ⟨rfl, rfl, by simp⟩
  · intro kf items st hitems
    exact reconcileAll_length_stable kf items (reconcileAll kf st items) hitems
      (reconcileAll_gains_keys kf items st hitems)
  · intro parse state spF subF bills st hids
    have hitems : ∀ i ∈ billSyncItems parse state spF subF bills,
        alookup "OpenStates ID" i.2 = some i.1 := by
      intro i hi
      obtain ⟨b, hb, he⟩ := List.mem_map.mp hi
      subst he
      rw [alookup_billRecord_key]
      obtain ⟨v, hv⟩ := Option.isSome_iff_exists.mp (hids b hb)
      rw [hv]
      rfl
    exact reconcileAll_length_stable "OpenStates ID" _ _ hitems
      (reconcileAll_gains_keys "OpenStates ID" _ st hitems)

/-- C1 witness: a two-pass reconciliation of one concrete bill item leaves
the record count unchanged. -/
theorem c1_upsert_reconciler_witness :
    (reconcileAll "OpenStates ID"
        (reconcileAll "OpenStates ID" (Store.mk [] 0)
          [(FieldVal.str "ocd-bill/1", [("OpenStates ID", FieldVal.str "ocd-bill/1")])])
        [(FieldVal.str "ocd-bill/1", [("OpenStates ID", FieldVal.str "ocd-bill/1")])]).recs.length
      = (reconcileAll "OpenStates ID" (Store.mk [] 0)
          [(FieldVal.str "ocd-bill/1", [("OpenStates ID", FieldVal.str "ocd-bill/1")])]).recs.length :=
  c1_upsert_reconciler.2.2.1 "OpenStates ID"
    [(FieldVal.str "ocd-bill/1", [("OpenStates ID", FieldVal.str "ocd-bill/1")])]
    (Store.mk [] 0) (by decide)

/-!  Claim C6: jurisdiction reconciliation key (corrected on the fallback
branch). -/

theorem find?_append_none {α : Type} [DecidableEq α] (kf : String) (kv : α) :
    ∀ (l1 l2 : List (SRecord α)), l1.find? (recMatch kf kv) = none →
      (l1 ++ l2).find? (recMatch kf kv) = l2.find? (recMatch kf kv) := by
  intro l1
  induction l1 with
  | nil => intro l2 _; rfl
  | cons a as ih =>
    intro l2 h
    by_cases ha : recMatch kf kv a = true
    · simp [List.find?, ha] at h
    · simp only [List.find?, Bool.of_not_eq_true ha] at h
      simp only [List.cons_append, List.find?, Bool.of_not_eq_true ha]
      exact ih l2 h

theorem find?_updateFirst {α : Type} [DecidableEq α] (kf : String) (kv : α)
    (d : List (String × α)) (hd : alookup kf d = some kv) :
    ∀ (l : List (SRecord α)) r, l.find? (recMatch kf kv) = some r →
      (updateFirst kf kv d l).find? (recMatch kf kv) = some ⟨r.rid, d ++ r.fields⟩ := by
  intro l
  induction l with
  | nil => intro r h; simp [List.find?] at h
  | cons a as ih =>
    intro r h
    by_cases ha : recMatch kf kv a = true
    · simp only [List.find?, ha] at h
      injection h with h
      subst h
      unfold updateFirst
      rw [if_pos ha]
      have hm : recMatch kf kv (⟨a.rid, d ++ a.fields⟩ : SRecord α) = true :=
        recMatch_of_alookup kf kv _ (alookup_append_some kf kv d a.fields hd)
      simp [List.find?, hm]
    · simp only [List.find?, Bool.of_not_eq_true ha] at h
      unfold updateFirst
      rw [if_neg ha]
      simp only [List.find?, Bool.of_not_eq_true ha]
      exact ih r h

theorem upsert_twice_same {α : Type} [DecidableEq α] (st : Store α) (kf : String) (kv : α)
    (d : List (String × α)) (hd : alookup kf d = some kv) :
    (findOrCreateRecord (findOrCreateRecord st kf kv d).2 kf kv d).1
      = (findOrCreateRecord st kf kv d).1
    ∧ (findOrCreateRecord (findOrCreateRecord st kf kv d).2 kf kv d).2.recs.length
      = (findOrCreateRecord st kf kv d).2.recs.length := by
  cases hf : st.recs.find? (recMatch kf kv) with
  | none =>
    have hnew : recMatch kf kv (⟨st.nextId, d⟩ : SRecord α) = true :=
      recMatch_of_alookup kf kv _ hd
    have hfind2 : List.find? (recMatch kf kv)
        (st.recs ++ [(⟨st.nextId, d⟩ : SRecord α)]) = some ⟨st.nextId, d⟩ := by
      rw [find?_append_none kf kv st.recs _ hf]
      simp [List.find?, hnew]
    refine ⟨?_, ?_⟩ <;> simp [findOrCreateRecord, hf, hfind2, updateFirst_length]
  | some r =>
    have hfind2 : List.find? (recMatch kf kv) (updateFirst kf kv d st.recs)
        = some ⟨r.rid, d ++ r.fields⟩ :=
      find?_updateFirst kf kv d hd st.recs r hf
    refine ⟨?_, ?_⟩ <;> simp [findOrCreateRecord, hf, hfind2, updateFirst_length]

/-- C6 counterexample: a jurisdiction whose identifier yields no
abbreviation is searched by display name in the Abbreviation field, but the
created record carries no Abbreviation value, so a repeated sync creates a
second record with a different internal ID instead of reconciling to the
same one. -/
theorem c6_counterexample :
    (syncState (Store.mk [] 0) ⟨none, "Puerto Rico", none, []⟩).1 = 0
    ∧ (syncState (syncState (Store.mk [] 0) ⟨none, "Puerto Rico", none, []⟩).2
        ⟨none, "Puerto Rico", none, []⟩).1 = 1
    ∧ (syncState (syncState (Store.mk [] 0) ⟨none, "Puerto Rico", none, []⟩).2
        ⟨none, "Puerto Rico", none, []⟩).2.recs.length = 2 := by
  decide

/-- C6 amended: the reconciliation key is the two-letter abbreviation
extracted case-insensitively from the `/state:<cc>/` pattern and
upper-cased, with the display name as search value when extraction fails;
when extraction SUCCEEDS the field set carries the abbreviation, so
repeated syncs of the same jurisdiction reconcile to the same record
(same internal ID, unchanged record count); when extraction fails the
created record carries no Abbreviation value, and repeated syncs do not
reconcile to the same record (see the counterexample). -/
theorem c6_state_reconciliation_amended :
    extractAbbr (some "ocd-jurisdiction/country:us/state:nc/government") = some "NC"
    ∧ extractAbbr (some "a/STATE:nC/b") = some "NC"
    ∧ (∀ (j : Jurisdiction) a, extractAbbr j.id = some a →
        stateSearchValue j = a ∧ alookup "Abbreviation" (stateRecordData j) = some a)
    ∧ (∀ j : Jurisdiction, extractAbbr j.id = none → stateSearchValue j = j.name)
    ∧ (∀ (st : Store String) (j : Jurisdiction) a, extractAbbr j.id = some a →
        (syncState (syncState st j).2 j).1 = (syncState st j).1
        ∧ (syncState (syncState st j).2 j).2.recs.length = (syncState st j).2.recs.length) := by
  refine ⟨by decide, by decide, ?_, ?_, ?_⟩
  · intro j a h
    constructor
    · simp only [stateSearchValue]
      rw [h]
    · simp [stateRecordData, alookup_append, alookup, h]
  · intro j h
    simp only [stateSearchValue]
    rw [h]
  · intro st j a h
    have hkey : alookup "Abbreviation" (stateRecordData j) = some (stateSearchValue j) := by
      have h1 : stateSearchValue j = a := by
        simp only [stateSearchValue]
        rw [h]
      rw [h1]
      simp [stateRecordData, alookup_append, alookup, h]
    exact upsert_twice_same st "Abbreviation" (stateSearchValue j) (stateRecordData j) hkey

/-- C6 witness: the repeated-sync component at a concrete extractable
jurisdiction. -/
theorem c6_state_reconciliation_amended_witness :
    (syncState (syncState (Store.mk [] 0)
        ⟨some "ocd-jurisdiction/country:us/state:nc/government", "North Carolina", none, []⟩).2
      ⟨some "ocd-jurisdiction/country:us/state:nc/government", "North Carolina", none, []⟩).1
      = (syncState (Store.mk [] 0)
        ⟨some "ocd-jurisdiction/country:us/state:nc/government", "North Carolina", none, []⟩).1 :=
  (c6_state_reconciliation_amended.2.2.2.2 (Store.mk [] 0)
    ⟨some "ocd-jurisdiction/country:us/state:nc/government", "North Carolina", none, []⟩
    "NC" (by decide)).1

/-!  Claim C7: sparse legislator field sets (corrected on the two identity
fields). -/

/-- C7 counterexample: for a person whose name attribute is absent, the
field set passed to reconciliation still contains the mapped field
`Full Name`, written as the empty string rather than omitted. -/
theorem c7_counterexample :
    (Person.mk none none none none none none none none none none [] []).name = none
    ∧ alookup "Full Name"
        (buildLegislatorRecord (Person.mk none none none none none none none none none none [] []))
        = some "" := by
  decide

set_option maxHeartbeats 1600000 in
/-- C7 amended: every conditionally mapped field (First Name, Last Name,
District, Photo URL, Biography, Contact Email, Party, Chamber, State,
Title, Phone, Office Address, Links) is omitted from the field set entirely
when the corresponding upstream attribute is absent or empty; the two
identity fields `Full Name` and `OpenStates ID` are instead always written,
with an empty-string fallback when the attribute is absent. -/
theorem c7_sparse_fields_amended (p : Person) :
    (truthy p.given_name = false → alookup "First Name" (buildLegislatorRecord p) = none)
    ∧ (truthy p.family_name = false → alookup "Last Name" (buildLegislatorRecord p) = none)
    ∧ (truthy (p.current_role.bind (fun r => r.district)) = false →
        alookup "District" (buildLegislatorRecord p) = none)
    ∧ (truthy p.image = false → alookup "Photo URL" (buildLegislatorRecord p) = none)
    ∧ (truthy p.biography = false → alookup "Biography" (buildLegislatorRecord p) = none)
    ∧ (truthy p.email = false → alookup "Contact Email" (buildLegislatorRecord p) = none)
    ∧ (truthy p.party = false → alookup "Party" (buildLegislatorRecord p) = none)
    ∧ (truthy (p.current_role.bind (fun r => r.org_classification)) = false →
        alookup "Chamber" (buildLegislatorRecord p) = none)
    ∧ (truthy (p.jurisdiction.bind (fun j => j.name)) = false →
        alookup "State" (buildLegislatorRecord p) = none)
    ∧ (truthy (p.current_role.bind (fun r => r.title)) = false →
        alookup "Title" (buildLegislatorRecord p) = none)
    ∧ ((extractOfficeInfo p).phone = none → alookup "Phone" (buildLegislatorRecord p) = none)
    ∧ ((extractOfficeInfo p).address = none →
        alookup "Office Address" (buildLegislatorRecord p) = none)
    ∧ ((extractOfficeInfo p).links = [] → alookup "Links" (buildLegislatorRecord p) = none)
    ∧ alookup "Full Name" (buildLegislatorRecord p) = some (p.name.getD "")
    ∧ alookup "OpenStates ID" (buildLegislatorRecord p) = some (p.id.getD "") := by
  refine ⟨?_, ?_, ?_, ?_, ?_, ?_, ?_, ?_, ?_, ?_, ?_, ?_, ?_, ?_, ?_⟩
  · intro h
    simp [buildLegislatorRecord, alookup_append, alookup_ite_single, alookup_ite_single_neg, alookup, h]
  · intro h
    simp [buildLegislatorRecord, alookup_append, alookup_ite_single, alookup_ite_single_neg, alookup, h]
  · intro h
    rcases hb : p.current_role.bind (fun r => r.district) with _ | s
    · simp [buildLegislatorRecord, alookup_append, alookup_ite_single, alookup_ite_single_neg, alookup, hb]
    · rw [hb] at h
      have hs : s = "" := by simpa [truthy] using h
      subst hs
      simp [buildLegislatorRecord, alookup_append, alookup_ite_single, alookup_ite_single_neg, alookup, hb]
  · intro h
    simp [buildLegislatorRecord, alookup_append, alookup_ite_single, alookup_ite_single_neg, alookup, h]
  · intro h
    simp [buildLegislatorRecord, alookup_append, alookup_ite_single, alookup_ite_single_neg, alookup, h]
  · intro h
    simp [buildLegislatorRecord, alookup_append, alookup_ite_single, alookup_ite_single_neg, alookup, h]
  · intro h
    simp [buildLegislatorRecord, alookup_append, alookup_ite_single, alookup_ite_single_neg, alookup, h]
  · intro h
    simp [buildLegislatorRecord, alookup_append, alookup_ite_single, alookup_ite_single_neg, alookup, h]
  · intro h
    simp [buildLegislatorRecord, alookup_append, alookup_ite_single, alookup_ite_single_neg, alookup, h]
  · intro h
    simp [buildLegislatorRecord, alookup_append, alookup_ite_single, alookup_ite_single_neg, alookup, h]
  · intro h
    simp [buildLegislatorRecord, alookup_append, alookup_ite_single, alookup_ite_single_neg, alookup, h, truthy]
  · intro h
    simp [buildLegislatorRecord, alookup_append, alookup_ite_single, alookup_ite_single_neg, alookup, h, truthy]
  · intro h
    simp [buildLegislatorRecord, alookup_append, alookup_ite_single, alookup_ite_single_neg, alookup, h]
  · simp [buildLegislatorRecord, alookup_append, alookup_ite_single, alookup_ite_single_neg, alookup]
  · simp [buildLegislatorRecord, alookup_append, alookup_ite_single, alookup_ite_single_neg, alookup]

/-- C7 witness: the First Name omission discharged at a concrete person
with no given name. -/
theorem c7_sparse_fields_amended_witness :
    alookup "First Name"
      (buildLegislatorRecord (Person.mk none none none none none none none none none none [] []))
      = none :=
  (c7_sparse_fields_amended (Person.mk none none none none none none none none none none [] [])).1
    (by decide)

/-!  Claim C5: chunked batch fetch of legislators. -/

theorem chunk_div_arith (n a : Nat) :
    (a - n + n) / (n + 1) + 1 = (a + 1 + n) / (n + 1) := by
  have h2 : a + 1 + n = a + (n + 1) := by omega
  by_cases hx : n ≤ a
  · have h1 : a - n + n = a := by omega
    rw [h1, h2, Nat.add_div_right _ (Nat.succ_pos n)]
  · have h1 : a - n = 0 := by omega
    have h3 : (0 + n) / (n + 1) = 0 := Nat.div_eq_of_lt (by omega)
    have h4 : a / (n + 1) = 0 := Nat.div_eq_of_lt (by omega)
    rw [h1, h2, Nat.add_div_right _ (Nat.succ_pos n), h3, h4]

theorem chunksOfFuel_length {α : Type} (n : Nat) :
    ∀ (fuel : Nat) (l : List α), l.length ≤ fuel →
      (chunksOfFuel fuel (n + 1) l).length = (l.length + n) / (n + 1) := by
  intro fuel
  induction fuel with
  | zero =>
    intro l h
    cases l with
    | nil =>
      simp only [chunksOfFuel, List.length_nil, Nat.zero_add]
      exact (Nat.div_eq_of_lt (Nat.lt_succ_self n)).symm
    | cons x xs => simp at h
  | succ f ih =>
    intro l h
    cases l with
    | nil =>
      simp only [chunksOfFuel, List.length_nil, Nat.zero_add]
      exact (Nat.div_eq_of_lt (Nat.lt_succ_self n)).symm
    | cons x xs =>
      have hdrop : (xs.drop n).length ≤ f := by
        simp only [List.length_drop]
        simp only [List.length_cons] at h
        omega
      simp only [chunksOfFuel, List.length_cons, Nat.add_sub_cancel,
        ih (xs.drop n) hdrop, List.length_drop]
      exact chunk_div_arith n xs.length

theorem chunksOfFuel_mem_length {α : Type} (n : Nat) :
    ∀ (fuel : Nat) (l : List α) c, c ∈ chunksOfFuel fuel (n + 1) l → c.length ≤ n + 1 := by
  intro fuel
  induction fuel with
  | zero => intro l c hc; simp [chunksOfFuel] at hc
  | succ f ih =>
    intro l c hc
    cases l with
    | nil => simp [chunksOfFuel] at hc
    | cons x xs =>
      simp only [chunksOfFuel, List.mem_cons] at hc
      rcases hc with he | ht
      · subst he
        have := List.length_take_le n xs
        simp only [List.length_cons, Nat.add_sub_cancel]
        omega
      · exact ih (xs.drop n) c ht

theorem runChunks_trace (fetch : List String → Except String (List Person)) :
    ∀ chunks, (runChunks fetch chunks).2 = chunks := by
  intro chunks
  induction chunks with
  | nil => rfl
  | cons c cs ih => simp [runChunks, ih]

theorem runChunks_error_skip (fetch : List String → Except String (List Person))
    (c : List String) (e : String) (hc : fetch c = Except.error e) :
    ∀ cs1 cs2, (runChunks fetch (cs1 ++ c :: cs2)).1 = (runChunks fetch (cs1 ++ cs2)).1 := by
  intro cs1
  induction cs1 with
  | nil =>
    intro cs2
    simp [runChunks, hc]
  | cons d ds ih =>
    intro cs2
    simp only [List.cons_append, runChunks, List.append_eq]
    rw [ih cs2]

/-- C5: for 25 unique person IDs the chunk loop issues exactly 3 upstream
calls (the trace of attempted chunks is the whole chunk list, of length 3),
every chunk carries at most 10 IDs, a failing chunk contributes nothing
while every other chunk is still used (dropping a failing chunk from the
loop leaves the resulting people map unchanged), and a person missing from
the map is processed from the caller-supplied stub. The loop and the
enclosing sync are total, so a chunk failure aborts neither. -/
theorem c5_chunked_batch_fetch (people : List Person)
    (h25 : (personIdsOf people).length = 25) :
    (chunksOf 10 (personIdsOf people)).length = 3
    ∧ (∀ fetch, (runChunks fetch (chunksOf 10 (personIdsOf people))).2
        = chunksOf 10 (personIdsOf people))
    ∧ (∀ c ∈ chunksOf 10 (personIdsOf people), c.length ≤ 10)
    ∧ (∀ fetch (cs1 : List (List String)) c cs2 e, fetch c = Except.error e →
        (runChunks fetch (cs1 ++ c :: cs2)).1 = (runChunks fetch (cs1 ++ cs2)).1)
    ∧ (∀ (m : List (Option String × Person)) p, alookup p.id m = none →
        resolvePersonData m p = p) := by
  refine ⟨?_, ?_, ?_, ?_, ?_⟩
  · show (chunksOfFuel (personIdsOf people).length 10 (personIdsOf people)).length = 3
    rw [chunksOfFuel_length 9 (personIdsOf people).length (personIdsOf people) (Nat.le_refl _),
      h25]
  · intro fetch
    exact runChunks_trace fetch _
  · intro c hc
    exact chunksOfFuel_mem_length 9 _ _ c hc
  · intro fetch cs1 c cs2 e he
    exact runChunks_error_skip fetch c e he cs1 cs2
  · intro m p h
    simp only [resolvePersonData]
    rw [h]

/-- C5 witness: 25 concrete sponsor stubs with distinct IDs give exactly 3
chunks. -/
theorem c5_chunked_batch_fetch_witness :
    (chunksOf 10 (personIdsOf ((List.range 25).map (fun i =>
        Person.mk (some ("p" ++ toString i)) (some "N") none none none none none none
          none none [] [])))).length = 3 :=
  (c5_chunked_batch_fetch _ (by decide)).1

/-!  Claim C9: sponsor and subject link capping. -/

theorem alookup_ite {β : Type} (k : String) (c : Prop) [Decidable c]
    (t e : List (String × β)) :
    alookup k (if c then t else e) = if c then alookup k t else alookup k e := by
  split <;> rfl

theorem filterMap_map_some {α : Type} :
    ∀ ids : List α, (ids.map some).filterMap (fun x => x) = ids := by
  intro ids
  induction ids with
  | nil => rfl
  | cons x xs ih => simp [ih]

theorem filterMap_comp_some {α : Type} :
    ∀ ids : List α, List.filterMap ((fun x => x) ∘ some) ids = ids := by
  intro ids
  induction ids with
  | nil => rfl
  | cons x xs ih => simp [List.filterMap_cons, Function.comp, ih]

set_option maxHeartbeats 1600000 in
/-- C9: a bill whose 15 sponsor stubs all reconcile successfully gets
exactly the first 10 internal IDs, in input order, in its Sponsors field;
and in general the Sponsors and Subject Areas lists written to a Bill
record never exceed 10 entries. -/
theorem c9_link_capping :
    (∀ parse state (subjectIds : List (Option String)) (b : Bill) (ids : List String),
      ids.length = 15 →
      alookup "Sponsors" (buildBillRecord parse state (ids.map some) subjectIds b)
        = some (FieldVal.list (ids.take 10)))
    ∧ (∀ parse state (sponsorIds subjectIds : List (Option String)) (b : Bill) l,
        alookup "Sponsors" (buildBillRecord parse state sponsorIds subjectIds b)
          = some (FieldVal.list l) → l.length ≤ 10)
    ∧ (∀ parse state (sponsorIds subjectIds : List (Option String)) (b : Bill) l,
        alookup "Subject Areas" (buildBillRecord parse state sponsorIds subjectIds b)
          = some (FieldVal.list l) → l.length ≤ 10) := by
  refine ⟨?_, ?_, ?_⟩
  · intro parse state subjectIds b ids h15
    cases hcl : b.classification with
    | nil =>
      simp [buildBillRecord, alookup_append, alookup_ite, alookup, filterMap_map_some,
        filterMap_comp_some, h15, hcl]
    | cons c rest =>
      simp [buildBillRecord, alookup_append, alookup_ite, alookup, filterMap_map_some,
        filterMap_comp_some, h15, hcl]
  · intro parse state sponsorIds subjectIds b l h
    cases hcl : b.classification with
    | nil =>
      simp [buildBillRecord, alookup_append, alookup_ite, alookup, hcl] at h
      obtain ⟨-, -, h3⟩ := h
      rw [← h3]
      exact List.length_take_le 10 _
    | cons c rest =>
      simp [buildBillRecord, alookup_append, alookup_ite, alookup, hcl] at h
      obtain ⟨-, -, h3⟩ := h
      rw [← h3]
      exact List.length_take_le 10 _
  · intro parse state sponsorIds subjectIds b l h
    cases hcl : b.classification with
    | nil =>
      simp [buildBillRecord, alookup_append, alookup_ite, alookup, hcl] at h
      obtain ⟨-, -, h3⟩ := h
      rw [← h3]
      exact List.length_take_le 10 _
    | cons c rest =>
      simp [buildBillRecord, alookup_append, alookup_ite, alookup, hcl] at h
      obtain ⟨-, -, h3⟩ := h
      rw [← h3]
      exact List.length_take_le 10 _

/-- C9 witness: 15 concrete sponsor IDs are capped to the first 10. -/
theorem c9_link_capping_witness :
    alookup "Sponsors"
      (buildBillRecord (fun _ => none) "ca"
        (((List.range 15).map (fun i => "r" ++ toString i)).map some) []
        (Bill.mk none none none [] none none [] none none none))
      = some (FieldVal.list (((List.range 15).map (fun i => "r" ++ toString i)).take 10)) :=
  c9_link_capping.1 (fun _ => none) "ca" []
    (Bill.mk none none none [] none none [] none none none)
    ((List.range 15).map (fun i => "r" ++ toString i)) (by decide)

/-!  Claim C8: handler response codes (corrected on an absent body). -/

/-- C8 counterexample: a POST carrying the correct bearer secret but no
parseable body object throws on destructuring and is answered with 500,
a non-200 response outside the claimed 401/400/405 set. -/
theorem c8_counterexample :
    (handler "sec" (fun _ => Except.ok (Jurisdiction.mk none "X" none []))
        (fun _ _ => Except.ok 0) (fun _ _ => Except.ok (1, 1))
        (Req.mk "POST" (some "Bearer sec") none)).1 = 500
    ∧ (500 : Nat) ∉ ([200, 400, 401, 405] : List Nat) := by
  exact ⟨rfl, by decide⟩

/-- C8 amended: every authenticated POST carrying a states array or a
truthy (nonempty) state parameter is answered 200 with a body holding
`success = true` and a per-state results array (one entry per requested
state, regardless of how many per-state syncs fail); a non-POST method is
answered 405, a bad bearer secret 401, an authenticated POST whose body
object has neither a states array nor a truthy state 400 (an empty-string
state parameter is falsy and counts as missing); but an authenticated POST
with no body object at all is answered 500 (see the counterexample), not
one of those codes. -/
theorem c8_handler_amended :
    (∀ secret jf rf bf stOpt ss lim,
      handler secret jf rf bf
          (Req.mk "POST" (some ("Bearer " ++ secret)) (some (ReqBody.mk stOpt (some ss) lim)))
        = (200, handlerRun jf rf bf ss lim))
    ∧ (∀ secret jf rf bf s lim, s ≠ "" →
      handler secret jf rf bf
          (Req.mk "POST" (some ("Bearer " ++ secret)) (some (ReqBody.mk (some s) none lim)))
        = (200, handlerRun jf rf bf [s] lim))
    ∧ (∀ jf rf bf (states : List String) lim, ∃ msg entries,
        handlerRun jf rf bf states lim
          = RespBody.syncBody true msg states.length
              ((entries.filterMap (fun e => e.synced)).foldl (fun a b => a + b) 0)
              ((entries.filterMap (fun e => e.total)).foldl (fun a b => a + b) 0) entries
        ∧ entries = states.map (fun s => processState (jf s) rf (bf s (effectiveLimit lim)) s)
        ∧ entries.length = states.length)
    ∧ (∀ secret jf rf bf req, req.method ≠ "POST" → (handler secret jf rf bf req).1 = 405)
    ∧ (∀ secret jf rf bf req, req.method = "POST" →
        req.authHeader ≠ some ("Bearer " ++ secret) → (handler secret jf rf bf req).1 = 401)
    ∧ (∀ secret jf rf bf lim,
        (handler secret jf rf bf
          (Req.mk "POST" (some ("Bearer " ++ secret)) (some (ReqBody.mk none none lim)))).1
          = 400)
    ∧ (∀ secret jf rf bf lim,
        (handler secret jf rf bf
          (Req.mk "POST" (some ("Bearer " ++ secret)) (some (ReqBody.mk (some "") none lim)))).1
          = 400) := by
  refine ⟨?_, ?_, ?_, ?_, ?_, ?_, ?_⟩
  · intro secret jf rf bf stOpt ss lim
    simp [handler]
  · intro secret jf rf bf s lim hs
    simp [handler, truthy, hs]
  · intro jf rf bf states lim
    exact ⟨_, _, rfl, rfl, by simp⟩
  · intro secret jf rf bf req h
    simp [handler, bne_iff_ne, h]
  · intro secret jf rf bf req h1 h2
    simp [handler, bne_iff_ne, h1, h2]
  · intro secret jf rf bf lim
    simp [handler, truthy]
  · intro secret jf rf bf lim
    simp [handler, truthy]

/-- C8 witness: the 405 branch discharged at a concrete GET request. -/
theorem c8_handler_amended_witness :
    (handler "sec" (fun _ => Except.ok (Jurisdiction.mk none "X" none []))
        (fun _ _ => Except.ok 0) (fun _ _ => Except.ok (1, 1))
        (Req.mk "GET" none none)).1 = 405 :=
  c8_handler_amended.2.2.2.1 "sec" (fun _ => Except.ok (Jurisdiction.mk none "X" none []))
    (fun _ _ => Except.ok 0) (fun _ _ => Except.ok (1, 1))
    (Req.mk "GET" none none) (by decide)

/-!  Claim C10: a failed States reconciliation is swallowed. -/

/-- C10: when the store reconciliation of the States record fails, the
state sync catches the error and returns null instead of propagating; the
per-state loop discards that return value and proceeds to the bill sync,
so with a successful bill sync the result entry still reports
`success = true` with no error — the jurisdiction-record failure never
appears in the response. -/
theorem c10_state_sync_error_swallowed :
    ∀ (reconcile : String → List (String × String) → Except String Nat) (j : Jurisdiction)
      (stateName : String) (sy tot : Nat),
      (∀ sv rd, ∃ e, reconcile sv rd = Except.error e) →
      syncStateCaught reconcile j = none
      ∧ processState (Except.ok j) reconcile (Except.ok (sy, tot)) stateName
          = SyncEntry.mk stateName true (some sy) (some tot) none := by
  intro reconcile j stateName sy tot h
  obtain ⟨e, he⟩ := h (stateSearchValue j) (stateRecordData j)
  constructor
  · simp [syncStateCaught, he]
  · rfl

/-- C10 witness: a concretely failing store reconciliation still yields a
success entry when the bill sync succeeds. -/
theorem c10_state_sync_error_swallowed_witness :
    syncStateCaught (fun _ _ => Except.error "store down")
        (Jurisdiction.mk none "X" none []) = none
    ∧ processState (Except.ok (Jurisdiction.mk none "X" none []))
        (fun _ _ => Except.error "store down") (Except.ok (3, 5)) "ca"
        = SyncEntry.mk "ca" true (some 3) (some 5) none :=
  c10_state_sync_error_swallowed (fun _ _ => Except.error "store down")
    (Jurisdiction.mk none "X" none []) "ca" 3 5 (fun _ _ => ⟨"store down", rfl⟩)

end SyncBills
